import Mathlib

/-!
Verification development for `pcp/plot/pcp_plot.py`.

The repository builds a Bokeh parallel-coordinate plot from a pandas
dataframe.  We embed the data pipeline of `_parallel_plot` shallowly:

* a dataframe is a list of named columns, each either numeric or
  categorical (`object` dtype); numeric cells are exact rationals `ℚ`
  (the Python code uses floats; every claim here is about the exact
  arithmetic expressions the code evaluates, so `ℚ` is the faithful
  ideal-arithmetic reading);
* pandas `Series.unique()` (order of first appearance), `np.where(u == e)`
  enumeration, per-column min/max normalisation, `np.linspace`,
  `np.arange`, the padded `Range1d` per column, the extra `LinearAxis`
  per column, the `LinearColorMapper` and the tool wiring are all
  translated operation by operation from the source.
-/

/-- A column of a dataframe: numeric values, or categorical (`object`
dtype) labels. -/
inductive ColVals where
  | nums (vals : List ℚ)
  | cats (vals : List String)
deriving DecidableEq, Repr

/-- A dataframe: a list of named columns (pandas column order). -/
structure DataFrame where
  cols : List (String × ColVals)
deriving DecidableEq, Repr

/-- Number of cells in a column. -/
def ColVals.size : ColVals → ℕ
  | .nums v => v.length
  | .cats v => v.length

/-- `df.dtypes == np.object_` test for one column. -/
def ColVals.isCats : ColVals → Bool
  | .nums _ => false
  | .cats _ => true

/-- `df.shape[0]`: the common row count of the frame (row count of the
first column; the claims that need it assume every column has this
length). -/
def nRows (df : DataFrame) : ℕ :=
  match df.cols with
  | [] => 0
  | c :: _ => c.2.size

/-- Every column of `df` has length `nRows df` (a pandas dataframe is
rectangular by construction). -/
def Rectangular (df : DataFrame) : Prop :=
  ∀ c ∈ df.cols, c.2.size = nRows df

instance (df : DataFrame) : Decidable (Rectangular df) := by
  unfold Rectangular; infer_instance

/-- `df_raw.drop(drop, axis=1)` when `drop is not None`, else
`df_raw.copy()`: the retained columns, in order.  Either way pandas
returns a fresh frame, distinct from the `df_raw` object. -/
def dropCols (df_raw : DataFrame) (drop : Option (List String)) : DataFrame :=
  match drop with
  | some names => ⟨df_raw.cols.filter (fun c => !names.contains c.1)⟩
  | none => df_raw

/-- `pd.Series.unique()`: the distinct values of a list in order of
first appearance (accumulator-based so it computes by `rfl`/`decide`). -/
def uniqueAux {α : Type} [DecidableEq α] (acc : List α) : List α → List α
  | [] => acc.reverse
  | x :: xs => if x ∈ acc then uniqueAux acc xs else uniqueAux (x :: acc) xs

/-- `series.unique()` for a list of values. -/
def uniqueL {α : Type} [DecidableEq α] (l : List α) : List α :=
  uniqueAux [] l

/-- The enumeration `series.apply(lambda elem: np.where(series.unique() == elem)[0].item())`:
each cell becomes the index of its value in the unique list. -/
def codes {α : Type} [DecidableEq α] (l : List α) : List ℕ :=
  l.map (fun v => (uniqueL l).indexOf v)

/-- The numeric content of a column as the code sees it after the
categorical re-coding: a numeric column is its values, a categorical
column is its enumeration codes. -/
def colQ : ColVals → List ℚ
  | .nums vals => vals
  | .cats vals => (codes vals).map (fun n : ℕ => (n : ℚ))

/-- The re-coding loop
`for col in categorical_columns: df[col] = df[col].apply(...)`:
every categorical column is replaced by its integer codes, numeric
columns are untouched. -/
def recodeDF (df : DataFrame) : DataFrame :=
  ⟨df.cols.map (fun c =>
    match c.2 with
    | .nums vals => (c.1, ColVals.nums vals)
    | .cats vals => (c.1, ColVals.nums ((codes vals).map (fun n : ℕ => (n : ℚ)))))⟩

/-- `series.min()` (0 on an empty column, where pandas would give NaN;
every claim that reads it assumes a nonempty column). -/
def colMin : List ℚ → ℚ
  | [] => 0
  | x :: xs => xs.foldl min x

/-- `series.max()` (same convention as `colMin`). -/
def colMax : List ℚ → ℚ
  | [] => 0
  | x :: xs => xs.foldl max x

/-- Per-column min-max normalisation, one column of
`(df - df.min()) / (df.max() - df.min())`. -/
def normCol (v : List ℚ) : List ℚ :=
  v.map (fun x => (x - colMin v) / (colMax v - colMin v))

/-- `.tolist()` of a `(npts, ndims)` array stored column-wise: row `i`
is the `i`-th cell of each column. -/
def rowsOf (cols : List (List ℚ)) (npts : ℕ) : List (List ℚ) :=
  (List.range npts).map (fun i => cols.map (fun c => c.getD i 0))

/-- `np.linspace(s, e, n)`: `n` evenly spaced samples from `s` to `e`,
endpoints included. -/
def linspace (s e : ℚ) (n : ℕ) : List ℚ :=
  (List.range n).map (fun i : ℕ => s + (e - s) * (i : ℚ) / ((n : ℚ) - 1))

/-- `np.arange(stop)` for a nonnegative scalar `stop`: the integers
`0, 1, …, ⌈stop⌉ - 1`. -/
def arangeQ (stop : ℚ) : List ℚ :=
  (List.range (Int.toNat ⌈stop⌉)).map (fun i : ℕ => (i : ℚ))

/-- The `Range1d(start=bound_min, end=bound_max, bounds=(bound_min, bound_max))`
built for a column. -/
structure Range1dM where
  start : ℚ
  stop : ℚ
  bounds : ℚ × ℚ
deriving DecidableEq, Repr

/-- One extra `LinearAxis` added on the right for a column. -/
structure LinearAxisM where
  fixed_location : ℕ
  y_range_name : String
  ticks : List ℚ
  minor_ticks : List ℚ
  major_label_overrides : List (ℕ × String)
deriving DecidableEq, Repr

/-- `LinearColorMapper(high=color.min(), low=color.max(), palette=palette)`. -/
structure LinearColorMapperM where
  low : ℚ
  high : ℚ
  palette : List String
deriving DecidableEq, Repr

/-- The `ColumnDataSource(dict(xs=…, ys=…, color=…))` of the polylines. -/
structure DataSourceM where
  xs : List (List ℕ)
  ys : List (List ℚ)
  color : List ℚ
deriving DecidableEq, Repr

/-- The tools that appear on the figure. -/
inductive ToolM where
  | pan
  | box_zoom
  | pcpSelection
  | pcpReset
  | tap
  | wheelZoom
deriving DecidableEq, Repr

/-- The parts of the Bokeh `figure` that `_parallel_plot` configures and
that the claims talk about. -/
structure FigureM where
  data_source : DataSourceM
  cmap : LinearColorMapperM
  extra_y_ranges : List (String × Range1dM)
  extra_axes : List LinearAxisM
  tools : List ToolM
  active_drag : Option ToolM
  active_tap : Option ToolM
deriving DecidableEq, Repr

/-- `color = np.ones(npts)` when `color is None`; an `object`-dtype color
series is enumerated exactly like a categorical column
(`color.apply(lambda elem: np.where(color.unique() == elem)[0].item())`). -/
def processColor (npts : ℕ) : Option ColVals → List ℚ
  | none => List.replicate npts 1
  | some c => colQ c

/-- `palette = ["#ff0000"]` when `palette is None`. -/
def processPalette : Option (List String) → List String
  | none => ["#ff0000"]
  | some p => p

/-- `df.columns.where(df.dtypes == np.object_).dropna()`: the names of
the `object`-dtype columns of the (dropped, not yet re-coded) frame. -/
def categoricalColumns (df : DataFrame) : List String :=
  (df.cols.filter (fun c => c.2.isCats)).map (fun c => c.1)

/-- `df[name]` lookup by column name (the first column with that name;
the same column the positional loop visits when names are unique). -/
def lookupCol (df : DataFrame) (name : String) : ColVals :=
  match df.cols.lookup name with
  | some v => v
  | none => .nums []

/-- `{col: range1d}` insertion into the `extra_y_ranges` dict: an
existing key is overwritten in place, a new key is appended. -/
def dictInsert (d : List (String × Range1dM)) (k : String) (v : Range1dM) :
    List (String × Range1dM) :=
  if d.any (fun p => p.1 = k) then
    d.map (fun p => if p.1 = k then (k, v) else p)
  else d ++ [(k, v)]

/-- The padded range for one column:
`bound_min = start + abs(end - start) * (p.y_range.bounds[0] - p.y_range.start)`
`bound_max = end + abs(end - start) * (p.y_range.bounds[1] - p.y_range.end)`
with `p.y_range.bounds = (-0.1, 1.1)`, `p.y_range.start = 0`,
`p.y_range.end = 1` at that point in the code. -/
def paddedRange (start stop : ℚ) : Range1dM :=
  let bound_min := start + |stop - start| * ((-0.1 : ℚ) - 0)
  let bound_max := stop + |stop - start| * ((1.1 : ℚ) - 1)
  { start := bound_min, stop := bound_max, bounds := (bound_min, bound_max) }

/-- The `Range1d` registered under a column's name:
`start = df[col].min()`, `end = df[col].max()` on the re-coded frame. -/
def rangeFor (df2 : DataFrame) (col : String) : Range1dM :=
  paddedRange (colMin (colQ (lookupCol df2 col))) (colMax (colQ (lookupCol df2 col)))

/-- The `p.extra_y_ranges.update({col: range1d})` loop over the columns
of the (re-coded) frame. -/
def extraYRanges (df2 : DataFrame) : List (String × Range1dM) :=
  (df2.cols.map (fun c => c.1)).foldl (fun d col => dictInsert d col (rangeFor df2 col)) []

/-- The `LinearAxis` added for the column named `col` at x-position
`index`.  `df1` is the dropped frame (whose dtypes decide
`categorical_columns`), `df2` the re-coded frame (whose values give
`start`/`end`), `df_raw` the original frame (whose `unique()` values
label a categorical axis).  A categorical axis gets ticks
`np.arange(end + 1)` and overrides
`{i: str(name) for i, name in enumerate(df_raw[col].unique())}`;
a numeric axis gets `np.linspace(start, end, 8)` and no overrides.
`strOfRawUnique` is `str` applied to the raw unique values; on the
claims' inputs the raw column is categorical, so they are strings
already. -/
def strOfRawUnique : ColVals → List String
  | .cats vals => uniqueL vals
  | .nums vals => (uniqueL vals).map (fun q => toString q)

def mkAxis (df_raw df1 df2 : DataFrame) (index : ℕ) (col : String) : LinearAxisM :=
  let v := colQ (lookupCol df2 col)
  let start := colMin v
  let stop := colMax v
  if col ∈ categoricalColumns df1 then
    { fixed_location := index
      y_range_name := col
      ticks := arangeQ (stop + 1)
      minor_ticks := []
      major_label_overrides := (strOfRawUnique (lookupCol df_raw col)).enum }
  else
    { fixed_location := index
      y_range_name := col
      ticks := linspace start stop 8
      minor_ticks := []
      major_label_overrides := [] }

/-- The `for index, col in enumerate(df.columns)` loop, axis part.  The
source builds the ranges dict and the axis list in the same loop; the
two accumulators are independent, so they are split into `extraYRanges`
and this map. -/
def extraAxes (df_raw df1 df2 : DataFrame) : List LinearAxisM :=
  (df2.cols.map (fun c => c.1)).enum.map (fun p => mkAxis df_raw df1 df2 p.1 p.2)

/-- The whole of `_parallel_plot(df_raw, drop, color, palette)`,
restricted to the model fields the claims are about. -/
def parallel_plot (df_raw : DataFrame) (drop : Option (List String))
    (color : Option ColVals) (palette : Option (List String)) : FigureM :=
  let df1 := dropCols df_raw drop
  let npts := nRows df1
  let ndims := df1.cols.length
  let colorVals := processColor npts color
  let pal := processPalette palette
  let df2 := recodeDF df1
  { data_source :=
      { xs := List.replicate npts (List.range ndims)
        ys := rowsOf ((df2.cols.map (fun c => colQ c.2)).map normCol) npts
        color := colorVals }
    cmap := { low := colMax colorVals, high := colMin colorVals, palette := pal }
    extra_y_ranges := extraYRanges df2
    extra_axes := extraAxes df_raw df1 df2
    tools := [.pan, .box_zoom] ++ [.pcpSelection, .pcpReset, .tap, .wheelZoom]
    active_drag := some .pcpSelection
    active_tap := none }

/-- The two Python names that hold a dataframe inside `_parallel_plot`:
the caller's `df_raw` and the local `df`. -/
structure PlotEnv where
  df_raw : DataFrame
  df : DataFrame
deriving DecidableEq, Repr

/-- `df = df_raw.drop(drop, axis=1)` / `df = df_raw.copy()`: pandas
`drop` (without `inplace=True`) and `copy` both return a fresh frame,
so only the `df` binding changes. -/
def bindDf (env : PlotEnv) (drop : Option (List String)) : PlotEnv :=
  { env with df := dropCols env.df_raw drop }

/-- `df[col] = df[col].apply(...)` for the categorical columns: a
full-column assignment on the object bound to `df`. -/
def recodeInPlace (env : PlotEnv) : PlotEnv :=
  { env with df := recodeDF env.df }

/-- The dataframe-mutating prefix of `_parallel_plot`, as explicit state
passing over the two bindings. -/
def runPlotEnv (df_raw : DataFrame) (drop : Option (List String)) : PlotEnv :=
  recodeInPlace (bindDf { df_raw := df_raw, df := df_raw } drop)

/-- Accessor: the `j`-th column of a frame. -/
def colAt (df : DataFrame) (j : ℕ) : ColVals :=
  (df.cols.getD j ("", ColVals.nums [])).2

/-- Accessor: the name of the `j`-th column of a frame. -/
def nameAt (df : DataFrame) (j : ℕ) : String :=
  (df.cols.getD j ("", ColVals.nums [])).1

/-- Accessor: the plotted y-value of row `i` at dimension `j`. -/
def ysAt (fig : FigureM) (i j : ℕ) : ℚ :=
  (fig.data_source.ys.getD i []).getD j 0

/-- Accessor: the `j`-th extra axis of a figure. -/
def axisAt (fig : FigureM) (j : ℕ) : LinearAxisM :=
  fig.extra_axes.getD j
    { fixed_location := 0, y_range_name := "", ticks := [], minor_ticks := [],
      major_label_overrides := [] }

theorem mem_uniqueAux {α : Type} [DecidableEq α] (l : List α) :
    ∀ (acc : List α) (a : α), a ∈ uniqueAux acc l ↔ a ∈ acc ∨ a ∈ l := by
  induction l with
  | nil => intro acc a; simp [uniqueAux]
  | cons x xs ih =>
    intro acc a
    by_cases hx : x ∈ acc
    · rw [uniqueAux, if_pos hx, ih]
      constructor
      · rintro (h | h)
        · exact Or.inl h
        · exact Or.inr (List.mem_cons_of_mem _ h)
      · rintro (h | h)
        · exact Or.inl h
        · rcases List.mem_cons.mp h with rfl | h
          · exact Or.inl hx
          · exact Or.inr h
    · rw [uniqueAux, if_neg hx, ih]
      constructor
      · rintro (h | h)
        · rcases List.mem_cons.mp h with rfl | h
          · exact Or.inr (List.mem_cons_self _ _)
          · exact Or.inl h
        · exact Or.inr (List.mem_cons_of_mem _ h)
      · rintro (h | h)
        · exact Or.inl (List.mem_cons_of_mem _ h)
        · rcases List.mem_cons.mp h with rfl | h
          · exact Or.inl (List.mem_cons_self _ _)
          · exact Or.inr h

theorem mem_uniqueL {α : Type} [DecidableEq α] {l : List α} {a : α} :
    a ∈ uniqueL l ↔ a ∈ l := by
  rw [uniqueL, mem_uniqueAux]
  simp

theorem nodup_uniqueAux {α : Type} [DecidableEq α] (l : List α) :
    ∀ acc : List α, acc.Nodup → (uniqueAux acc l).Nodup := by
  induction l with
  | nil => intro acc h; simpa [uniqueAux] using h
  | cons x xs ih =>
    intro acc h
    by_cases hx : x ∈ acc
    · rw [uniqueAux, if_pos hx]; exact ih acc h
    · rw [uniqueAux, if_neg hx]
      exact ih (x :: acc) (List.nodup_cons.mpr ⟨hx, h⟩)

theorem nodup_uniqueL {α : Type} [DecidableEq α] (l : List α) :
    (uniqueL l).Nodup :=
  nodup_uniqueAux l [] List.nodup_nil

/-- The enumeration codes of a list are all below the number of distinct
values. -/
theorem codes_lt {α : Type} [DecidableEq α] {l : List α} {n : ℕ}
    (hn : n ∈ codes l) : n < (uniqueL l).length := by
  rcases List.mem_map.mp hn with ⟨v, hv, rfl⟩
  exact List.indexOf_lt_length.mpr (mem_uniqueL.mpr hv)

/-- Every index below the number of distinct values is attained by some
code. -/
theorem codes_surj {α : Type} [DecidableEq α] {l : List α} {n : ℕ}
    (hn : n < (uniqueL l).length) : n ∈ codes l := by
  have hv : (uniqueL l).get ⟨n, hn⟩ ∈ l := mem_uniqueL.mp (List.get_mem _ n hn)
  refine List.mem_map.mpr ⟨(uniqueL l).get ⟨n, hn⟩, hv, ?_⟩
  simpa using List.get_indexOf (nodup_uniqueL l) ⟨n, hn⟩

theorem uniqueL_get_mem {α : Type} [DecidableEq α] {l : List α} {n : ℕ}
    (hn : n < (uniqueL l).length) : (uniqueL l).get ⟨n, hn⟩ ∈ l :=
  mem_uniqueL.mp (List.get_mem _ n hn)

/-- The number of distinct values of a list is the cardinality of its
set of values. -/
theorem uniqueL_length_eq_card {α : Type} [DecidableEq α] (l : List α) :
    (uniqueL l).length = l.toFinset.card := by
  have hset : (uniqueL l).toFinset = l.toFinset := by
    ext a
    simp [List.mem_toFinset, mem_uniqueL]
  rw [← hset, List.toFinset_card_of_nodup (nodup_uniqueL l)]

theorem foldl_min_le_init (l : List ℚ) (a : ℚ) : l.foldl min a ≤ a := by
  induction l generalizing a with
  | nil => simp
  | cons x xs ih => exact le_trans (ih (min a x)) (min_le_left a x)

theorem foldl_min_le_mem {l : List ℚ} {b : ℚ} (a : ℚ) (hb : b ∈ l) :
    l.foldl min a ≤ b := by
  induction l generalizing a with
  | nil => cases hb
  | cons x xs ih =>
    rcases List.mem_cons.mp hb with rfl | hb
    · exact le_trans (foldl_min_le_init xs (min a b)) (min_le_right a b)
    · exact ih (min a x) hb


theorem foldl_min_mem (l : List ℚ) (a : ℚ) :
    l.foldl min a = a ∨ l.foldl min a ∈ l := by
  induction l generalizing a with
  | nil => simp
  | cons x xs ih =>
    rcases ih (min a x) with h | h
    · rcases min_cases a x with ⟨he, _⟩ | ⟨he, _⟩
      · exact Or.inl (by rw [List.foldl_cons, h, he])
      · exact Or.inr (by rw [List.foldl_cons, h, he]; exact List.mem_cons_self _ _)
    · exact Or.inr (List.mem_cons_of_mem _ h)

theorem init_le_foldl_max (l : List ℚ) (a : ℚ) : a ≤ l.foldl max a := by
  induction l generalizing a with
  | nil => simp
  | cons x xs ih => exact le_trans (le_max_left a x) (ih (max a x))

theorem mem_le_foldl_max {l : List ℚ} {b : ℚ} (a : ℚ) (hb : b ∈ l) :
    b ≤ l.foldl max a := by
  induction l generalizing a with
  | nil => cases hb
  | cons x xs ih =>
    rcases List.mem_cons.mp hb with rfl | hb
    · exact le_trans (le_max_right a b) (init_le_foldl_max xs (max a b))
    · exact ih (max a x) hb

theorem foldl_max_mem (l : List ℚ) (a : ℚ) :
    l.foldl max a = a ∨ l.foldl max a ∈ l := by
  induction l generalizing a with
  | nil => simp
  | cons x xs ih =>
    rcases ih (max a x) with h | h
    · rcases max_cases a x with ⟨he, _⟩ | ⟨he, _⟩
      · exact Or.inl (by rw [List.foldl_cons, h, he])
      · exact Or.inr (by rw [List.foldl_cons, h, he]; exact List.mem_cons_self _ _)
    · exact Or.inr (List.mem_cons_of_mem _ h)

/-- `series.min()` is a lower bound of the column. -/
theorem colMin_le {l : List ℚ} {v : ℚ} (hv : v ∈ l) : colMin l ≤ v := by
  cases l with
  | nil => cases hv
  | cons x xs =>
    rcases List.mem_cons.mp hv with rfl | hv
    · exact foldl_min_le_init xs v
    · exact foldl_min_le_mem x hv

/-- `series.max()` is an upper bound of the column. -/
theorem le_colMax {l : List ℚ} {v : ℚ} (hv : v ∈ l) : v ≤ colMax l := by
  cases l with
  | nil => cases hv
  | cons x xs =>
    rcases List.mem_cons.mp hv with rfl | hv
    · exact init_le_foldl_max xs v
    · exact mem_le_foldl_max x hv

/-- On a nonempty column, `series.min()` is one of the values. -/
theorem colMin_mem {l : List ℚ} (h : l ≠ []) : colMin l ∈ l := by
  cases l with
  | nil => exact absurd rfl h
  | cons x xs =>
    rcases foldl_min_mem xs x with he | hm
    · rw [colMin, he]; exact List.mem_cons_self _ _
    · exact List.mem_cons_of_mem _ hm

/-- On a nonempty column, `series.max()` is one of the values. -/
theorem colMax_mem {l : List ℚ} (h : l ≠ []) : colMax l ∈ l := by
  cases l with
  | nil => exact absurd rfl h
  | cons x xs =>
    rcases foldl_max_mem xs x with he | hm
    · rw [colMax, he]; exact List.mem_cons_self _ _
    · exact List.mem_cons_of_mem _ hm

theorem getD_map_of_lt {α β : Type} (f : α → β) (l : List α) {i : ℕ}
    (h : i < l.length) (d : β) :
    (l.map f).getD i d = f (l.get ⟨i, h⟩) := by
  rw [List.getD_eq_getElem?_getD, List.getElem?_map, List.getElem?_eq_getElem h]
  simp

theorem getD_eq_get_of_lt {α : Type} (l : List α) {i : ℕ}
    (h : i < l.length) (d : α) :
    l.getD i d = l.get ⟨i, h⟩ := by
  rw [List.getD_eq_getElem?_getD, List.getElem?_eq_getElem h]
  rfl

/-- Row `i` of the row-major listing is the `i`-th cell of each column. -/
theorem rowsOf_getD (cols : List (List ℚ)) {npts i : ℕ} (h : i < npts) :
    (rowsOf cols npts).getD i [] = cols.map (fun c => c.getD i 0) := by
  rw [rowsOf, getD_map_of_lt _ _ (by simpa using h) []]
  simp

/-- A column's numeric content has as many cells as the column. -/
theorem colQ_length (c : ColVals) : (colQ c).length = c.size := by
  cases c <;> simp only [colQ, List.length_map, codes, ColVals.size]

/-- Re-coding does not change the numeric content of any column: a
numeric column keeps its values, a categorical column's content is its
codes either way. -/
theorem recodeDF_colQ (df : DataFrame) :
    (recodeDF df).cols.map (fun c => colQ c.2) = df.cols.map (fun c => colQ c.2) := by
  rw [recodeDF, List.map_map]
  apply List.map_congr_left
  intro c _
  obtain ⟨name, cv⟩ := c
  cases cv <;> simp [colQ]

/-- Re-coding keeps the column names. -/
theorem recodeDF_names (df : DataFrame) :
    (recodeDF df).cols.map (fun c => c.1) = df.cols.map (fun c => c.1) := by
  rw [recodeDF, List.map_map]
  apply List.map_congr_left
  intro c _
  obtain ⟨name, cv⟩ := c
  cases cv <;> simp

/-- One cell of a normalised column is `(x - min) / (max - min)`. -/
theorem normCol_getD {v : List ℚ} {i : ℕ} (h : i < v.length) :
    (normCol v).getD i 0 = (v.getD i 0 - colMin v) / (colMax v - colMin v) := by
  rw [normCol, getD_map_of_lt _ _ h 0, getD_eq_get_of_lt _ h 0]

/-- On a column whose min is strictly below its max, every normalised
cell lies in `[0, 1]`. -/
theorem normCol_bounds {v : List ℚ} {i : ℕ} (h : i < v.length)
    (hlt : colMin v < colMax v) :
    0 ≤ (normCol v).getD i 0 ∧ (normCol v).getD i 0 ≤ 1 := by
  rw [normCol_getD h, getD_eq_get_of_lt _ h 0]
  have hmem : v.get ⟨i, h⟩ ∈ v := List.get_mem v i h
  constructor
  · exact div_nonneg (sub_nonneg.mpr (colMin_le hmem)) (le_of_lt (sub_pos.mpr hlt))
  · exact (div_le_one (sub_pos.mpr hlt)).mpr (sub_le_sub_right (le_colMax hmem) _)

/-- The plotted y-value at row `i`, dimension `j` is cell `i` of the
normalised `j`-th retained column. -/
theorem ysAt_eq (df_raw : DataFrame) (drop : Option (List String))
    (color : Option ColVals) (palette : Option (List String)) {i j : ℕ}
    (hj : j < (dropCols df_raw drop).cols.length)
    (hi : i < nRows (dropCols df_raw drop)) :
    ysAt (parallel_plot df_raw drop color palette) i j
      = (normCol (colQ (colAt (dropCols df_raw drop) j))).getD i 0 := by
  rw [ysAt, parallel_plot]
  simp only
  rw [recodeDF_colQ, rowsOf_getD _ hi, List.map_map, List.map_map,
    getD_map_of_lt _ _ hj 0, colAt, getD_eq_get_of_lt _ hj _]
  rfl

/-- A small concrete frame used by the witnesses: one numeric and one
categorical column, two rows. -/
def wdfA : DataFrame :=
  ⟨[("a", ColVals.nums [1, 3]), ("b", ColVals.cats ["x", "y"])]⟩

/-- Claim C1: for every input dataframe and every retained column, the
plotted y-value of row `i` at that column is the min-max normalised
cell `(df[i][c] - min c) / (max c - min c)`; when `min c < max c` every
such y-value lies in `[0, 1]`. -/
theorem claim_C1 (df_raw : DataFrame) (drop : Option (List String))
    (color : Option ColVals) (palette : Option (List String)) (i j : ℕ)
    (hrect : Rectangular (dropCols df_raw drop))
    (hj : j < (dropCols df_raw drop).cols.length)
    (hi : i < nRows (dropCols df_raw drop)) :
    ysAt (parallel_plot df_raw drop color palette) i j
      = ((colQ (colAt (dropCols df_raw drop) j)).getD i 0
          - colMin (colQ (colAt (dropCols df_raw drop) j)))
        / (colMax (colQ (colAt (dropCols df_raw drop) j))
          - colMin (colQ (colAt (dropCols df_raw drop) j)))
    ∧ (colMin (colQ (colAt (dropCols df_raw drop) j))
        < colMax (colQ (colAt (dropCols df_raw drop) j)) →
      0 ≤ ysAt (parallel_plot df_raw drop color palette) i j
      ∧ ysAt (parallel_plot df_raw drop color palette) i j ≤ 1) := by
  have hmem : (dropCols df_raw drop).cols.get ⟨j, hj⟩ ∈ (dropCols df_raw drop).cols :=
    List.get_mem _ j hj
  have hcol : colAt (dropCols df_raw drop) j
      = ((dropCols df_raw drop).cols.get ⟨j, hj⟩).2 := by
    rw [colAt, getD_eq_get_of_lt _ hj]
  have hlen : i < (colQ (colAt (dropCols df_raw drop) j)).length := by
    rw [colQ_length, hcol, hrect _ hmem]
    exact hi
  refine ⟨?_, fun hlt => ?_⟩
  · rw [ysAt_eq df_raw drop color palette hj hi, normCol_getD hlen]
  · rw [ysAt_eq df_raw drop color palette hj hi]
    exact normCol_bounds hlen hlt

/-- Witness for C1 on `wdfA`: the numeric column `[1, 3]` normalises
row 1 to `(3 - 1) / (3 - 1) = 1`, inside `[0, 1]`. -/
theorem claim_C1_witness :
    Rectangular (dropCols wdfA none)
    ∧ 0 < (dropCols wdfA none).cols.length
    ∧ 1 < nRows (dropCols wdfA none)
    ∧ ysAt (parallel_plot wdfA none none none) 1 0 = 1
    ∧ 0 ≤ ysAt (parallel_plot wdfA none none none) 1 0
    ∧ ysAt (parallel_plot wdfA none none none) 1 0 ≤ 1 := by
  have h := claim_C1 wdfA none none none 1 0 (by decide) (by decide) (by decide)
  have hb := h.2 (by decide)
  refine ⟨by decide, by decide, by decide, ?_, hb.1, hb.2⟩
  rw [h.1]
  norm_num [wdfA, dropCols, colAt, colQ, colMin, colMax]

/-- Claim C2: a retained categorical column is enumerated before
plotting: the re-coded cell is the index of the cell's value in the
column's unique values in order of first appearance, every code is
below the number `k` of distinct values, every integer below `k` is
attained, and `k` is the number of distinct values of the column. -/
theorem claim_C2 (df_raw : DataFrame) (drop : Option (List String))
    (j : ℕ) (name : String) (vs : List String)
    (hj : j < (dropCols df_raw drop).cols.length)
    (hcol : (dropCols df_raw drop).cols.getD j ("", ColVals.nums [])
      = (name, ColVals.cats vs)) :
    (recodeDF (dropCols df_raw drop)).cols.getD j ("", ColVals.nums [])
      = (name, ColVals.nums
          ((vs.map (fun v => (uniqueL vs).indexOf v)).map (fun n : ℕ => (n : ℚ))))
    ∧ (∀ n ∈ codes vs, n < (uniqueL vs).length)
    ∧ (∀ n : ℕ, n < (uniqueL vs).length → n ∈ codes vs)
    ∧ (uniqueL vs).length = vs.toFinset.card := by
  have hget : (dropCols df_raw drop).cols.get ⟨j, hj⟩ = (name, ColVals.cats vs) := by
    rw [← getD_eq_get_of_lt _ hj ("", ColVals.nums [])]
    exact hcol
  refine ⟨?_, fun n hn => codes_lt hn, fun n hn => codes_surj hn,
    uniqueL_length_eq_card vs⟩
  show ((dropCols df_raw drop).cols.map _).getD j ("", ColVals.nums []) = _
  rw [getD_map_of_lt _ _ hj _, hget]
  rfl

/-- Witness for C2 on `wdfA`: the categorical column `["x", "y"]` is
re-coded to `[0, 1]`; both codes lie below `k = 2` and both are
attained. -/
theorem claim_C2_witness :
    1 < (dropCols wdfA none).cols.length
    ∧ (dropCols wdfA none).cols.getD 1 ("", ColVals.nums [])
      = ("b", ColVals.cats ["x", "y"])
    ∧ (recodeDF (dropCols wdfA none)).cols.getD 1 ("", ColVals.nums [])
      = ("b", ColVals.nums [0, 1])
    ∧ 1 ∈ codes ["x", "y"]
    ∧ (uniqueL ["x", "y"]).length = (["x", "y"] : List String).toFinset.card := by
  have h := claim_C2 wdfA none 1 "b" ["x", "y"] (by decide) (by decide)
  refine ⟨by decide, by decide, ?_, h.2.2.1 1 (by decide), h.2.2.2⟩
  rw [h.1]
  decide

/-- In a pair list with no duplicate keys, `lookup` finds the value of
any member pair. -/
theorem lookup_eq_of_nodup {β : Type} {l : List (String × β)} {k : String} {v : β}
    (hnd : (l.map (fun c => c.1)).Nodup) (hmem : (k, v) ∈ l) :
    l.lookup k = some v := by
  induction l with
  | nil => cases hmem
  | cons c rest ih =>
    rw [List.map_cons, List.nodup_cons] at hnd
    rcases List.mem_cons.mp hmem with he | hmem
    · rw [← he]
      simp [List.lookup]
    · have hk : ¬(k == c.1) = true := by
        intro hkc
        exact hnd.1 (by
          rw [beq_iff_eq] at hkc
          rw [← hkc]
          exact List.mem_map.mpr ⟨(k, v), hmem, rfl⟩)
      have hkf : (k == c.1) = false := by
        cases hcase : (k == c.1) with
        | true => exact absurd hcase hk
        | false => rfl
      rw [List.lookup, hkf]
      exact ih hnd.2 hmem

/-- The retained columns are a sublist of the original frame's. -/
theorem dropCols_sublist (df_raw : DataFrame) (drop : Option (List String)) :
    (dropCols df_raw drop).cols.Sublist df_raw.cols := by
  cases drop with
  | none => exact List.Sublist.refl _
  | some names => exact List.filter_sublist _

/-- If the original column names have no duplicates, neither do the
retained ones. -/
theorem dropCols_names_nodup {df_raw : DataFrame} {drop : Option (List String)}
    (h : (df_raw.cols.map (fun c => c.1)).Nodup) :
    ((dropCols df_raw drop).cols.map (fun c => c.1)).Nodup :=
  List.Nodup.sublist (List.Sublist.map _ (dropCols_sublist df_raw drop)) h

/-- Re-coding a frame whose `j`-th column is categorical puts the codes
at position `j`, under the same name. -/
theorem recodeDF_mem_cats {df : DataFrame} {name : String} {vs : List String}
    (hmem : (name, ColVals.cats vs) ∈ df.cols) :
    (name, ColVals.nums ((codes vs).map (fun n : ℕ => (n : ℚ)))) ∈ (recodeDF df).cols := by
  rw [recodeDF]
  exact List.mem_map.mpr ⟨(name, ColVals.cats vs), hmem, rfl⟩

theorem recodeDF_mem_nums {df : DataFrame} {name : String} {vs : List ℚ}
    (hmem : (name, ColVals.nums vs) ∈ df.cols) :
    (name, ColVals.nums vs) ∈ (recodeDF df).cols := by
  rw [recodeDF]
  exact List.mem_map.mpr ⟨(name, ColVals.nums vs), hmem, rfl⟩

/-- Re-coded frame keeps nodup names. -/
theorem recodeDF_names_nodup {df : DataFrame}
    (h : (df.cols.map (fun c => c.1)).Nodup) :
    ((recodeDF df).cols.map (fun c => c.1)).Nodup := by
  rw [recodeDF_names]
  exact h

/-- `df[col]` on the re-coded frame, for a categorical retained column,
is the code column (unique names). -/
theorem lookupCol_recode_cats {df : DataFrame} {name : String} {vs : List String}
    (hnd : (df.cols.map (fun c => c.1)).Nodup)
    (hmem : (name, ColVals.cats vs) ∈ df.cols) :
    lookupCol (recodeDF df) name = ColVals.nums ((codes vs).map (fun n : ℕ => (n : ℚ))) := by
  rw [lookupCol, lookup_eq_of_nodup (recodeDF_names_nodup hnd) (recodeDF_mem_cats hmem)]

/-- `df[col]` on the re-coded frame, for a numeric retained column, is
the column itself (unique names). -/
theorem lookupCol_recode_nums {df : DataFrame} {name : String} {vs : List ℚ}
    (hnd : (df.cols.map (fun c => c.1)).Nodup)
    (hmem : (name, ColVals.nums vs) ∈ df.cols) :
    lookupCol (recodeDF df) name = ColVals.nums vs := by
  rw [lookupCol, lookup_eq_of_nodup (recodeDF_names_nodup hnd) (recodeDF_mem_nums hmem)]

/-- A categorical retained column's name is in `categorical_columns`. -/
theorem mem_categoricalColumns {df : DataFrame} {name : String} {vs : List String}
    (hmem : (name, ColVals.cats vs) ∈ df.cols) :
    name ∈ categoricalColumns df := by
  rw [categoricalColumns]
  exact List.mem_map.mpr
    ⟨(name, ColVals.cats vs), List.mem_filter.mpr ⟨hmem, rfl⟩, rfl⟩

/-- A numeric column's name is not in `categorical_columns` when names
are unique. -/
theorem not_mem_categoricalColumns {df : DataFrame} {name : String} {vs : List ℚ}
    (hnd : (df.cols.map (fun c => c.1)).Nodup)
    (hmem : (name, ColVals.nums vs) ∈ df.cols) :
    name ∉ categoricalColumns df := by
  rw [categoricalColumns]
  intro hc
  rcases List.mem_map.mp hc with ⟨c, hcf, hcn⟩
  have hcm := List.mem_filter.mp hcf
  have : c = (name, ColVals.nums vs) := by
    have h1 : c.1 = (name, ColVals.nums vs).1 := hcn
    have := List.inj_on_of_nodup_map hnd (List.mem_filter.mp hcf).1 hmem h1
    exact this
  rw [this] at hcm
  simp [ColVals.isCats] at hcm

/-- The `j`-th extra axis of the figure is the axis built for the
`j`-th retained column name at x-position `j`. -/
theorem axisAt_eq (df_raw : DataFrame) (drop : Option (List String))
    (color : Option ColVals) (palette : Option (List String)) {j : ℕ}
    (hj : j < (dropCols df_raw drop).cols.length) :
    axisAt (parallel_plot df_raw drop color palette) j
      = mkAxis df_raw (dropCols df_raw drop) (recodeDF (dropCols df_raw drop)) j
          (nameAt (dropCols df_raw drop) j) := by
  rw [axisAt, parallel_plot]
  simp only
  rw [extraAxes, recodeDF_names]
  have hlen : j < ((dropCols df_raw drop).cols.map (fun c => c.1)).enum.length := by
    simpa [List.enum_length] using hj
  rw [getD_map_of_lt _ _ hlen _]
  have henum : ((dropCols df_raw drop).cols.map (fun c => c.1)).enum.get ⟨j, hlen⟩
      = (j, nameAt (dropCols df_raw drop) j) := by
    rw [List.get_eq_getElem, List.getElem_enum]
    congr 1
    rw [List.getElem_map, nameAt, getD_eq_get_of_lt _ hj]
    rfl
  rw [henum]

/-- A nonempty column has at least one distinct value. -/
theorem uniqueL_pos {α : Type} [DecidableEq α] {l : List α} (h : l ≠ []) :
    0 < (uniqueL l).length := by
  cases l with
  | nil => exact absurd rfl h
  | cons x xs =>
    exact List.length_pos.mpr
      (List.ne_nil_of_mem (mem_uniqueL.mpr (List.mem_cons_self x xs)))

/-- The max of a categorical column's codes is `k - 1` where `k` is the
number of distinct values. -/
theorem colMax_codes {vs : List String} (h : vs ≠ []) :
    colMax ((codes vs).map (fun n : ℕ => (n : ℚ)))
      = (((uniqueL vs).length - 1 : ℕ) : ℚ) := by
  show colMax (colQ (ColVals.cats vs)) = _
  have hk : 0 < (uniqueL vs).length := uniqueL_pos h
  have hlistne : colQ (ColVals.cats vs) ≠ [] := by
    cases vs with
    | nil => exact absurd rfl h
    | cons x xs => simp [colQ, codes]
  apply le_antisymm
  · simp only [colQ]
    rcases List.mem_map.mp (by simpa only [colQ] using colMax_mem hlistne) with ⟨n, hn, he⟩
    rw [← he]
    exact_mod_cast Nat.le_sub_one_of_lt (codes_lt hn)
  · apply le_colMax
    simp only [colQ]
    refine List.mem_map.mpr ⟨(uniqueL vs).length - 1, codes_surj ?_, rfl⟩
    omega

/-- `np.arange(k - 1 + 1)` for a natural scalar is `[0, …, k-1]`. -/
theorem arangeQ_natCast_add_one (n : ℕ) :
    arangeQ ((n : ℚ) + 1) = (List.range (n + 1)).map (fun i : ℕ => (i : ℚ)) := by
  rw [arangeQ]
  congr 1
  have : ((n : ℚ) + 1) = ((n + 1 : ℕ) : ℚ) := by push_cast; ring
  rw [this, Int.ceil_natCast]
  simp

/-- Claim C3: for a retained categorical column with `k` unique values
(a frame with unique column names), the extra y-axis for that column
carries exactly the `k` tick positions `0, …, k-1` and exactly `k`
major-label overrides, override `i` being the `i`-th unique value of
that column in the original dataframe (`df_raw[col].unique()`). -/
theorem claim_C3 (df_raw : DataFrame) (drop : Option (List String))
    (color : Option ColVals) (palette : Option (List String))
    (j : ℕ) (name : String) (vs : List String)
    (hnd : (df_raw.cols.map (fun c => c.1)).Nodup)
    (hj : j < (dropCols df_raw drop).cols.length)
    (hcol : (dropCols df_raw drop).cols.getD j ("", ColVals.nums [])
      = (name, ColVals.cats vs))
    (hne : vs ≠ []) :
    (axisAt (parallel_plot df_raw drop color palette) j).ticks
      = (List.range (uniqueL vs).length).map (fun i : ℕ => (i : ℚ))
    ∧ (axisAt (parallel_plot df_raw drop color palette) j).ticks.length
      = (uniqueL vs).length
    ∧ (axisAt (parallel_plot df_raw drop color palette) j).major_label_overrides
      = (uniqueL vs).enum
    ∧ (axisAt (parallel_plot df_raw drop color palette) j).major_label_overrides.length
      = (uniqueL vs).length
    ∧ lookupCol df_raw name = ColVals.cats vs := by
  have hnd1 : ((dropCols df_raw drop).cols.map (fun c => c.1)).Nodup :=
    dropCols_names_nodup hnd
  have hget : (dropCols df_raw drop).cols.get ⟨j, hj⟩ = (name, ColVals.cats vs) := by
    rw [← getD_eq_get_of_lt _ hj ("", ColVals.nums [])]
    exact hcol
  have hmem : (name, ColVals.cats vs) ∈ (dropCols df_raw drop).cols := by
    rw [← hget]
    exact List.get_mem _ j hj
  have hmemraw : (name, ColVals.cats vs) ∈ df_raw.cols :=
    (dropCols_sublist df_raw drop).subset hmem
  have hraw : lookupCol df_raw name = ColVals.cats vs := by
    rw [lookupCol, lookup_eq_of_nodup hnd hmemraw]
  have hnamej : nameAt (dropCols df_raw drop) j = name := by
    rw [nameAt, hcol]
  have hk : 0 < (uniqueL vs).length := uniqueL_pos hne
  have hax := axisAt_eq df_raw drop color palette hj
  rw [hnamej] at hax
  rw [hax, mkAxis, lookupCol_recode_cats hnd1 hmem]
  simp only [colQ, if_pos (mem_categoricalColumns hmem), colMax_codes hne, hraw,
    strOfRawUnique]
  rw [arangeQ_natCast_add_one]
  have hsucc : (uniqueL vs).length - 1 + 1 = (uniqueL vs).length := by omega
  rw [hsucc]
  simp [List.enum_length]

/-- Witness for C3 on `wdfA`: the categorical column `["x", "y"]` has
`k = 2`; its axis has ticks `[0, 1]` and overrides `[(0, "x"), (1, "y")]`. -/
theorem claim_C3_witness :
    (wdfA.cols.map (fun c => c.1)).Nodup
    ∧ 1 < (dropCols wdfA none).cols.length
    ∧ (dropCols wdfA none).cols.getD 1 ("", ColVals.nums [])
      = ("b", ColVals.cats ["x", "y"])
    ∧ (axisAt (parallel_plot wdfA none none none) 1).ticks = [0, 1]
    ∧ (axisAt (parallel_plot wdfA none none none) 1).ticks.length = 2
    ∧ (axisAt (parallel_plot wdfA none none none) 1).major_label_overrides
      = [(0, "x"), (1, "y")] := by
  have h := claim_C3 wdfA none none none 1 "b" ["x", "y"]
    (by decide) (by decide) (by decide) (by decide)
  refine ⟨by decide, by decide, by decide, ?_, ?_, ?_⟩
  · rw [h.1]
    decide
  · rw [h.2.1]
    decide
  · rw [h.2.2.1]
    decide

theorem linspace_length (s e : ℚ) (n : ℕ) : (linspace s e n).length = n := by
  simp [linspace]

theorem linspace_getD (s e : ℚ) {n i : ℕ} (h : i < n) :
    (linspace s e n).getD i 0 = s + (e - s) * (i : ℚ) / ((n : ℚ) - 1) := by
  rw [linspace, getD_map_of_lt _ _ (by simpa using h) 0]
  simp

/-- Claim C9: for a retained non-categorical column (a frame with
unique column names), the extra y-axis carries exactly 8 tick
positions, evenly spaced from the column's minimum to its maximum,
endpoints included, with no minor ticks and no label overrides. -/
theorem claim_C9 (df_raw : DataFrame) (drop : Option (List String))
    (color : Option ColVals) (palette : Option (List String))
    (j : ℕ) (name : String) (vs : List ℚ)
    (hnd : (df_raw.cols.map (fun c => c.1)).Nodup)
    (hj : j < (dropCols df_raw drop).cols.length)
    (hcol : (dropCols df_raw drop).cols.getD j ("", ColVals.nums [])
      = (name, ColVals.nums vs)) :
    (axisAt (parallel_plot df_raw drop color palette) j).ticks.length = 8
    ∧ (∀ i : ℕ, i < 8 →
        (axisAt (parallel_plot df_raw drop color palette) j).ticks.getD i 0
          = colMin vs + (colMax vs - colMin vs) * (i : ℚ) / 7)
    ∧ (axisAt (parallel_plot df_raw drop color palette) j).ticks.getD 0 0 = colMin vs
    ∧ (axisAt (parallel_plot df_raw drop color palette) j).ticks.getD 7 0 = colMax vs
    ∧ (∀ i : ℕ, i + 1 < 8 →
        (axisAt (parallel_plot df_raw drop color palette) j).ticks.getD (i + 1) 0
          - (axisAt (parallel_plot df_raw drop color palette) j).ticks.getD i 0
          = (colMax vs - colMin vs) / 7)
    ∧ (axisAt (parallel_plot df_raw drop color palette) j).minor_ticks = []
    ∧ (axisAt (parallel_plot df_raw drop color palette) j).major_label_overrides = [] := by
  have hnd1 : ((dropCols df_raw drop).cols.map (fun c => c.1)).Nodup :=
    dropCols_names_nodup hnd
  have hget : (dropCols df_raw drop).cols.get ⟨j, hj⟩ = (name, ColVals.nums vs) := by
    rw [← getD_eq_get_of_lt _ hj ("", ColVals.nums [])]
    exact hcol
  have hmem : (name, ColVals.nums vs) ∈ (dropCols df_raw drop).cols := by
    rw [← hget]
    exact List.get_mem _ j hj
  have hnamej : nameAt (dropCols df_raw drop) j = name := by
    rw [nameAt, hcol]
  have hax := axisAt_eq df_raw drop color palette hj
  rw [hnamej] at hax
  rw [hax, mkAxis, lookupCol_recode_nums hnd1 hmem]
  simp only [colQ, if_neg (not_mem_categoricalColumns hnd1 hmem)]
  refine ⟨linspace_length _ _ 8, fun i hi => ?_, ?_, ?_, fun i hi => ?_, by simp, by simp⟩
  · rw [linspace_getD _ _ hi]
    norm_num
  · rw [linspace_getD _ _ (by norm_num : (0 : ℕ) < 8)]
    norm_num
  · rw [linspace_getD _ _ (by norm_num : (7 : ℕ) < 8)]
    push_cast
    field_simp
    ring
  · rw [linspace_getD _ _ hi, linspace_getD _ _ (by omega : i < 8)]
    push_cast
    field_simp
    ring

/-- Witness for C9 on `wdfA`: the numeric column `[1, 3]` gets an axis
with 8 ticks running from 1 to 3, no minor ticks, no overrides. -/
theorem claim_C9_witness :
    (wdfA.cols.map (fun c => c.1)).Nodup
    ∧ 0 < (dropCols wdfA none).cols.length
    ∧ (dropCols wdfA none).cols.getD 0 ("", ColVals.nums [])
      = ("a", ColVals.nums [1, 3])
    ∧ (axisAt (parallel_plot wdfA none none none) 0).ticks.length = 8
    ∧ (axisAt (parallel_plot wdfA none none none) 0).ticks.getD 0 0 = 1
    ∧ (axisAt (parallel_plot wdfA none none none) 0).ticks.getD 7 0 = 3
    ∧ (axisAt (parallel_plot wdfA none none none) 0).minor_ticks = []
    ∧ (axisAt (parallel_plot wdfA none none none) 0).major_label_overrides = [] := by
  have h := claim_C9 wdfA none none none 0 "a" [1, 3] (by decide) (by decide) (by decide)
  refine ⟨by decide, by decide, by decide, h.1, ?_, ?_,
    h.2.2.2.2.2.1, h.2.2.2.2.2.2⟩
  · rw [h.2.2.1]
    decide
  · rw [h.2.2.2.1]
    decide

/-- Claim C4: when a retained column has a single unique value
(its min equals its max), the divisor `df.max() - df.min()` used by the
normalisation of that column is zero and `_parallel_plot` applies the
division anyway — there is no guard, so every plotted y-value of the
column is the bare quotient `(x - min) / 0` (the embedding's degenerate
value of such a division), which flows into the data source unchanged. -/
theorem claim_C4 (df_raw : DataFrame) (drop : Option (List String))
    (color : Option ColVals) (palette : Option (List String)) (i j : ℕ)
    (hj : j < (dropCols df_raw drop).cols.length)
    (hi : i < nRows (dropCols df_raw drop))
    (hdeg : colMin (colQ (colAt (dropCols df_raw drop) j))
      = colMax (colQ (colAt (dropCols df_raw drop) j))) :
    colMax (colQ (colAt (dropCols df_raw drop) j))
      - colMin (colQ (colAt (dropCols df_raw drop) j)) = 0
    ∧ ysAt (parallel_plot df_raw drop color palette) i j
      = ((colQ (colAt (dropCols df_raw drop) j)).getD i 0
          - colMin (colQ (colAt (dropCols df_raw drop) j))) / 0 := by
  have hz : colMax (colQ (colAt (dropCols df_raw drop) j))
      - colMin (colQ (colAt (dropCols df_raw drop) j)) = 0 := by
    rw [hdeg, sub_self]
  refine ⟨hz, ?_⟩
  rw [ysAt_eq df_raw drop color palette hj hi, normCol]
  by_cases hlen : i < (colQ (colAt (dropCols df_raw drop) j)).length
  · rw [getD_map_of_lt _ _ hlen 0, hz, getD_eq_get_of_lt _ hlen 0]
  · rw [List.getD_eq_getElem?_getD, List.getElem?_map,
      List.getElem?_eq_none (by omega : (colQ (colAt (dropCols df_raw drop) j)).length ≤ i),
      List.getD_eq_getElem?_getD,
      List.getElem?_eq_none (by omega : (colQ (colAt (dropCols df_raw drop) j)).length ≤ i)]
    simp

/-- Witness for C4: a frame whose only column is the constant `[2, 2]`;
the divisor is `0` and the plotted value is `(2 - 2) / 0`. -/
theorem claim_C4_witness :
    0 < (dropCols ⟨[("c", ColVals.nums [2, 2])]⟩ none).cols.length
    ∧ 0 < nRows (dropCols ⟨[("c", ColVals.nums [2, 2])]⟩ none)
    ∧ colMin (colQ (colAt (dropCols ⟨[("c", ColVals.nums [2, 2])]⟩ none) 0))
      = colMax (colQ (colAt (dropCols ⟨[("c", ColVals.nums [2, 2])]⟩ none) 0))
    ∧ colMax (colQ (colAt (dropCols ⟨[("c", ColVals.nums [2, 2])]⟩ none) 0))
      - colMin (colQ (colAt (dropCols ⟨[("c", ColVals.nums [2, 2])]⟩ none) 0)) = 0
    ∧ ysAt (parallel_plot ⟨[("c", ColVals.nums [2, 2])]⟩ none none none) 0 0
      = ((colQ (colAt (dropCols ⟨[("c", ColVals.nums [2, 2])]⟩ none) 0)).getD 0 0
          - colMin (colQ (colAt (dropCols ⟨[("c", ColVals.nums [2, 2])]⟩ none) 0))) / 0 := by
  have h := claim_C4 ⟨[("c", ColVals.nums [2, 2])]⟩ none none none 0 0
    (by decide) (by decide) (by decide)
  exact ⟨by decide, by decide, by decide, h.1, h.2⟩

/-- Claim C6: the figure returned by `_parallel_plot` always carries the
custom selection and reset tools (besides tap and wheel-zoom), the
selection tool is the active drag tool, and the active tap tool is
`None`. -/
theorem claim_C6 (df_raw : DataFrame) (drop : Option (List String))
    (color : Option ColVals) (palette : Option (List String)) :
    ToolM.pcpSelection ∈ (parallel_plot df_raw drop color palette).tools
    ∧ ToolM.pcpReset ∈ (parallel_plot df_raw drop color palette).tools
    ∧ ToolM.tap ∈ (parallel_plot df_raw drop color palette).tools
    ∧ ToolM.wheelZoom ∈ (parallel_plot df_raw drop color palette).tools
    ∧ (parallel_plot df_raw drop color palette).active_drag = some ToolM.pcpSelection
    ∧ (parallel_plot df_raw drop color palette).active_tap = none := by
  rw [parallel_plot]
  exact ⟨by simp, by simp, by simp, by simp, rfl, rfl⟩

/-- Claim C8: `_parallel_plot` never mutates its input frame: after the
column-dropping and in-place categorical re-coding steps, the `df_raw`
binding still holds the caller's frame unchanged, and all re-coding
landed on the local `df` (which is the frame the rest of the function
plots). -/
theorem claim_C8 (df_raw : DataFrame) (drop : Option (List String)) :
    (runPlotEnv df_raw drop).df_raw = df_raw
    ∧ (runPlotEnv df_raw drop).df = recodeDF (dropCols df_raw drop) := by
  exact ⟨rfl, rfl⟩

/-- Claim C10: the colour mapper is built inverted — `high` is the
minimum and `low` the maximum of the (processed) colour values; with no
colour every row gets the constant colour 1, and with no palette the
palette is the single colour `"#ff0000"`. -/
theorem claim_C10 (df_raw : DataFrame) (drop : Option (List String)) :
    (∀ (c : ColVals) (palette : Option (List String)),
      (parallel_plot df_raw drop (some c) palette).cmap.high = colMin (colQ c)
      ∧ (parallel_plot df_raw drop (some c) palette).cmap.low = colMax (colQ c))
    ∧ (∀ palette : Option (List String),
      (parallel_plot df_raw drop none palette).data_source.color
        = List.replicate (nRows (dropCols df_raw drop)) 1)
    ∧ (parallel_plot df_raw drop none none).cmap.palette = ["#ff0000"] := by
  exact ⟨fun c palette => ⟨rfl, rfl⟩, fun palette => rfl, rfl⟩

/-- Both branches of `mkAxis` put the axis at x-position `index` with
the column's named range. -/
theorem mkAxis_proj (df_raw df1 df2 : DataFrame) (index : ℕ) (col : String) :
    (mkAxis df_raw df1 df2 index col).fixed_location = index
    ∧ (mkAxis df_raw df1 df2 index col).y_range_name = col := by
  rw [mkAxis]
  by_cases h : col ∈ categoricalColumns df1
  · rw [if_pos h]
    exact ⟨rfl, rfl⟩
  · rw [if_neg h]
    exact ⟨rfl, rfl⟩

/-- Inserting a fresh key into the ranges dict appends it. -/
theorem dictInsert_not_mem {d : List (String × Range1dM)} {k : String} (v : Range1dM)
    (h : ∀ p ∈ d, p.1 ≠ k) : dictInsert d k v = d ++ [(k, v)] := by
  have hany : ¬(d.any (fun p => p.1 = k) = true) := by
    simp only [List.any_eq_true, decide_eq_true_eq]
    rintro ⟨p, hp, he⟩
    exact h p hp he
  rw [dictInsert, if_neg hany]

/-- Folding the per-column dict updates over fresh keys just lists the
columns' ranges in order. -/
theorem extraYRanges_foldl (df2 : DataFrame) (names : List String) :
    ∀ (d : List (String × Range1dM)),
      ((d.map (fun p => p.1)) ++ names).Nodup →
      names.foldl (fun d col => dictInsert d col (rangeFor df2 col)) d
        = d ++ names.map (fun col => (col, rangeFor df2 col)) := by
  induction names with
  | nil =>
    intro d _
    simp
  | cons n rest ih =>
    intro d hnd
    have hn : ∀ p ∈ d, p.1 ≠ n := by
      intro p hp he
      have h1 : n ∈ d.map (fun p => p.1) := List.mem_map.mpr ⟨p, hp, he⟩
      exact absurd (List.mem_cons_self n rest) ((List.nodup_append.mp hnd).2.2 h1)
    rw [List.foldl_cons, dictInsert_not_mem _ hn,
      ih _ (by simpa [List.append_assoc] using hnd)]
    simp

/-- With unique column names, the `extra_y_ranges` dict pairs every
retained column name with the padded range of that column's values. -/
theorem extraYRanges_eq (df1 : DataFrame)
    (hnd : (df1.cols.map (fun c => c.1)).Nodup) :
    extraYRanges (recodeDF df1)
      = df1.cols.map (fun c =>
          (c.1, paddedRange (colMin (colQ c.2)) (colMax (colQ c.2)))) := by
  rw [extraYRanges, recodeDF_names,
    extraYRanges_foldl _ _ [] (by simpa using hnd), List.nil_append, List.map_map]
  apply List.map_congr_left
  intro c hc
  obtain ⟨name, cv⟩ := c
  cases cv with
  | nums vals =>
    simp only [Function.comp, rangeFor, lookupCol_recode_nums hnd hc, colQ]
  | cats vals =>
    simp only [Function.comp, rangeFor, lookupCol_recode_cats hnd hc, colQ]

/-- Claim C5: the data source holds exactly `npts` polylines, one per
row, each with x-coordinates `[0, …, ndims-1]`; one extra `LinearAxis`
per retained column, the `j`-th fixed at x-location `j` under the
`j`-th column's name; and (unique names) the `extra_y_ranges` dict maps
each retained column's name to its own padded `Range1d`. -/
theorem claim_C5 (df_raw : DataFrame) (drop : Option (List String))
    (color : Option ColVals) (palette : Option (List String))
    (hnd : (df_raw.cols.map (fun c => c.1)).Nodup) :
    (parallel_plot df_raw drop color palette).data_source.ys.length
      = nRows (dropCols df_raw drop)
    ∧ (parallel_plot df_raw drop color palette).data_source.xs
      = List.replicate (nRows (dropCols df_raw drop))
          (List.range (dropCols df_raw drop).cols.length)
    ∧ (parallel_plot df_raw drop color palette).extra_axes.length
      = (dropCols df_raw drop).cols.length
    ∧ (∀ j : ℕ, j < (dropCols df_raw drop).cols.length →
        (axisAt (parallel_plot df_raw drop color palette) j).fixed_location = j
        ∧ (axisAt (parallel_plot df_raw drop color palette) j).y_range_name
          = nameAt (dropCols df_raw drop) j)
    ∧ (parallel_plot df_raw drop color palette).extra_y_ranges
      = (dropCols df_raw drop).cols.map (fun c =>
          (c.1, paddedRange (colMin (colQ c.2)) (colMax (colQ c.2))))
    ∧ (∀ j : ℕ, j < (dropCols df_raw drop).cols.length →
        (parallel_plot df_raw drop color palette).extra_y_ranges.lookup
            (nameAt (dropCols df_raw drop) j)
          = some (paddedRange (colMin (colQ (colAt (dropCols df_raw drop) j)))
              (colMax (colQ (colAt (dropCols df_raw drop) j))))) := by
  have hnd1 : ((dropCols df_raw drop).cols.map (fun c => c.1)).Nodup :=
    dropCols_names_nodup hnd
  have hrng : (parallel_plot df_raw drop color palette).extra_y_ranges
      = (dropCols df_raw drop).cols.map (fun c =>
          (c.1, paddedRange (colMin (colQ c.2)) (colMax (colQ c.2)))) :=
    extraYRanges_eq (dropCols df_raw drop) hnd1
  refine ⟨?_, rfl, ?_, fun j hj => ?_, hrng, fun j hj => ?_⟩
  · show (rowsOf _ _).length = _
    simp [rowsOf]
  · show (extraAxes _ _ _).length = _
    rw [extraAxes, List.length_map, List.enum_length, List.length_map,
      recodeDF, List.length_map]
  · rw [axisAt_eq df_raw drop color palette hj]
    exact mkAxis_proj _ _ _ j _
  · rw [hrng]
    have hkeys : (((dropCols df_raw drop).cols.map (fun c =>
        (c.1, paddedRange (colMin (colQ c.2)) (colMax (colQ c.2))))).map
          (fun p => p.1)).Nodup := by
      rw [List.map_map]
      exact hnd1
    refine lookup_eq_of_nodup hkeys ?_
    refine List.mem_map.mpr ⟨(dropCols df_raw drop).cols.get ⟨j, hj⟩,
      List.get_mem _ j hj, ?_⟩
    rw [nameAt, colAt, getD_eq_get_of_lt _ hj]

/-- Witness for C5 on `wdfA`: 2 rows and 2 retained columns give 2
polylines with x-coordinates `[0, 1]`, 2 extra axes (axis 0 at
x-location 0 named `"a"`), and a ranges dict pairing each column with
its padded range. -/
theorem claim_C5_witness :
    (wdfA.cols.map (fun c => c.1)).Nodup
    ∧ (parallel_plot wdfA none none none).data_source.ys.length = 2
    ∧ (parallel_plot wdfA none none none).data_source.xs = [[0, 1], [0, 1]]
    ∧ (parallel_plot wdfA none none none).extra_axes.length = 2
    ∧ (axisAt (parallel_plot wdfA none none none) 0).fixed_location = 0
    ∧ (axisAt (parallel_plot wdfA none none none) 0).y_range_name = "a"
    ∧ (parallel_plot wdfA none none none).extra_y_ranges
      = (dropCols wdfA none).cols.map (fun c =>
          (c.1, paddedRange (colMin (colQ c.2)) (colMax (colQ c.2)))) := by
  have h := claim_C5 wdfA none none none (by decide)
  obtain ⟨h1, h2, h3, h4, h5, _⟩ := h
  have ha := h4 0 (by decide)
  refine ⟨by decide, ?_, ?_, ?_, ha.1, ha.2, h5⟩
  · rw [h1]
    decide
  · rw [h2]
    decide
  · rw [h3]
    decide
